import Mathlib

/-!
# The lint fixture `test-scripts/linter-tests/bad_go.go`

The repository's only source file is a Go program kept as an input fixture for
a linter.  This development embeds

* the text of the fixture, line by line (`fixtureLines`, `fixtureText`);
* the lexical structure of the Go subset the fixture is written in
  (`lexStep`, `lexRun`, `lex`), with Go's automatic semicolon insertion;
* the grammar of that subset (`parseFile`) and the resulting syntax tree;
* the five defect categories named by the fixture's comments, as analyses of
  the syntax tree and of the text;
* the behaviour of `main` as a function on standard output.
-/

namespace BadGo

/-! ## The text of the fixture -/

/-- The lines of `bad_go.go`, without their terminating newline. -/
def fixtureLines : List String := [
  "package main",
  "",
  "import (",
  "\t\"fmt\"",
  "\t\"os\"",
  "\t\"io\"  // unused import",
  ")",
  "",
  "func main() \x7b",
  "\t// Magic number",
  "\tx := 42",
  "\t// Unused variable",
  "\ty := 10",
  "\t",
  "\t// Bad error handling",
  "\tfmt.Println(x)",
  "\t",
  "\t// Line too long for some standards",
  "\tveryLongVariableName := \"This is a very long string that might trigger a line length warning in some linters and configurations\"",
  "\tfmt.Println(veryLongVariableName)",
  "\x7d"
]

/-- The newline character. -/
def newline : Char := Char.ofNat 10

/-- The double quote character. -/
def dquote : Char := Char.ofNat 34

/-- The backslash character. -/
def backslash : Char := Char.ofNat 92

/-- The tab character. -/
def tab : Char := Char.ofNat 9

/-- Concatenate lines, each followed by a newline. -/
def unlines : List (List Char) → List Char
  | [] => []
  | l :: ls => l ++ newline :: unlines ls

/-- The content of `bad_go.go`: every line is terminated by a newline. -/
def fixtureText : List Char := unlines (fixtureLines.map String.toList)

/-- The `n`-th line of a text, counting from 0; lines are separated by newlines. -/
def nthLine : List Char → Nat → List Char
  | [], _ => []
  | c :: cs, 0 => if c = newline then [] else c :: nthLine cs 0
  | c :: cs, n + 1 => if c = newline then nthLine cs n else nthLine cs (n + 1)

/-- The number of lines of a text: one more than its number of newlines. -/
def lineCount : List Char → Nat
  | [] => 1
  | c :: cs => if c = newline then lineCount cs + 1 else lineCount cs

/-! ## Lexical structure -/

/-- Tokens of the Go subset. -/
inductive Token where
  | kw (s : List Char)
  | ident (s : List Char)
  | int (digits : List Char)
  | str (body : List Char)
  | punct (s : List Char)
  deriving DecidableEq, Repr

/-- ASCII letters and the underscore. -/
def isLetter (c : Char) : Bool :=
  (97 ≤ c.toNat && c.toNat ≤ 122) || (65 ≤ c.toNat && c.toNat ≤ 90) || c.toNat = 95

/-- Decimal digits. -/
def isDigit (c : Char) : Bool := 48 ≤ c.toNat && c.toNat ≤ 57

/-- White space: space, tab, carriage return, newline. -/
def isSpace (c : Char) : Bool :=
  c.toNat = 32 || c.toNat = 9 || c.toNat = 13 || c.toNat = 10

/-- One-character operators and punctuation of the subset: `( ) , . ; = { }`. -/
def isPunct (c : Char) : Bool :=
  c.toNat = 40 || c.toNat = 41 || c.toNat = 44 || c.toNat = 46 || c.toNat = 59
    || c.toNat = 61 || c.toNat = 123 || c.toNat = 125

/-- The keywords of Go. -/
def keywords : List (List Char) :=
  ["break", "case", "chan", "const", "continue", "default", "defer", "else",
   "fallthrough", "for", "func", "go", "goto", "if", "import", "interface", "map",
   "package", "range", "return", "select", "struct", "switch", "type", "var"].map
    String.toList

/-- A scanned word is a keyword or an identifier. -/
def wordToken (s : List Char) : Token :=
  if s ∈ keywords then Token.kw s else Token.ident s

/-- Go inserts a semicolon after a line's final token when that token is an
identifier, a literal, one of the keywords `break`, `continue`, `fallthrough`,
`return`, or one of the closing brackets. -/
def Token.endsStatement : Token → Bool
  | Token.ident _ => true
  | Token.int _ => true
  | Token.str _ => true
  | Token.kw s => s ∈ ["break", "continue", "fallthrough", "return"].map String.toList
  | Token.punct s => s ∈ [")", "\x7d"].map String.toList

/-- The scanner's mode between two characters. -/
inductive Mode where
  | start
  | word (acc : List Char)
  | number (acc : List Char)
  | string (acc : List Char) (esc : Bool)
  | slash
  | lineComment
  | blockComment
  | blockStar
  | colon
  | bad
  deriving DecidableEq, Repr

/-- Scan a character that begins a new lexical element. -/
def transStart (c : Char) : Mode × List Token :=
  if isLetter c then (Mode.word [c], [])
  else if isDigit c then (Mode.number [c], [])
  else if c = dquote then (Mode.string [] false, [])
  else if c.toNat = 47 then (Mode.slash, [])
  else if c.toNat = 58 then (Mode.colon, [])
  else if isSpace c then (Mode.start, [])
  else if isPunct c then (Mode.start, [Token.punct [c]])
  else (Mode.bad, [])

/-- Scan one character: the next mode and the tokens completed by the character. -/
def trans : Mode → Char → Mode × List Token
  | Mode.start, c => transStart c
  | Mode.word acc, c =>
    if isLetter c || isDigit c then (Mode.word (acc ++ [c]), [])
    else ((transStart c).1, wordToken acc :: (transStart c).2)
  | Mode.number acc, c =>
    if isDigit c then (Mode.number (acc ++ [c]), [])
    else if isLetter c || c.toNat = 46 then (Mode.bad, [])
    else ((transStart c).1, Token.int acc :: (transStart c).2)
  | Mode.string acc esc, c =>
    if c = newline then (Mode.bad, [])
    else if esc then (Mode.string (acc ++ [c]) false, [])
    else if c = backslash then (Mode.string (acc ++ [c]) true, [])
    else if c = dquote then (Mode.start, [Token.str acc])
    else (Mode.string (acc ++ [c]) false, [])
  | Mode.slash, c =>
    if c.toNat = 47 then (Mode.lineComment, [])
    else if c.toNat = 42 then (Mode.blockComment, [])
    else (Mode.bad, [])
  | Mode.lineComment, c => if c = newline then (Mode.start, []) else (Mode.lineComment, [])
  | Mode.blockComment, c => if c.toNat = 42 then (Mode.blockStar, []) else (Mode.blockComment, [])
  | Mode.blockStar, c =>
    if c.toNat = 47 then (Mode.start, [])
    else if c.toNat = 42 then (Mode.blockStar, [])
    else (Mode.blockComment, [])
  | Mode.colon, c => if c.toNat = 61 then (Mode.start, [Token.punct ":=".toList]) else (Mode.bad, [])
  | Mode.bad, _ => (Mode.bad, [])

/-- The scanner's state: mode, current line (from 1), tokens so far with their
lines, and whether a newline now would insert a semicolon. -/
structure LexState where
  mode : Mode
  line : Nat
  toks : List (Token × Nat)
  semi : Bool
  deriving Repr

/-- The semicolon flag after emitting `out`. -/
def semiAfter (old : Bool) (out : List Token) : Bool :=
  match out.getLast? with
  | some t => t.endsStatement
  | none => old

/-- The automatically inserted semicolon. -/
def semicolon : Token := Token.punct ";".toList

/-- Consume one character. -/
def lexStep (st : LexState) (c : Char) : LexState :=
  let r := trans st.mode c
  let toks1 := st.toks ++ r.2.map (fun t => (t, st.line))
  let semi1 := semiAfter st.semi r.2
  if c = newline then
    { mode := r.1, line := st.line + 1,
      toks := if semi1 then toks1 ++ [(semicolon, st.line)] else toks1, semi := false }
  else
    { mode := r.1, line := st.line, toks := toks1, semi := semi1 }

/-- Consume a text. -/
def lexRun : LexState → List Char → LexState
  | st, [] => st
  | st, c :: cs => lexRun (lexStep st c) cs

/-- The state before the first character. -/
def lexInit : LexState := { mode := Mode.start, line := 1, toks := [], semi := false }

/-- The tokens completed by the end of the text, or `none` when the text ends
inside a lexical element that needs more characters. -/
def flush : Mode → Option (List Token)
  | Mode.start => some []
  | Mode.lineComment => some []
  | Mode.word acc => some [wordToken acc]
  | Mode.number acc => some [Token.int acc]
  | _ => none

/-- End of text: complete the pending token and insert the final semicolon. -/
def lexFinish (st : LexState) : Option (List (Token × Nat)) :=
  match flush st.mode with
  | none => none
  | some out =>
    let toks1 := st.toks ++ out.map (fun t => (t, st.line))
    some (if semiAfter st.semi out then toks1 ++ [(semicolon, st.line)] else toks1)

/-- Scan a text into tokens with their line numbers. -/
def lex (text : List Char) : Option (List (Token × Nat)) :=
  lexFinish (lexRun lexInit text)

/-- The token sequence of a text, without positions. -/
def tokens (text : List Char) : Option (List Token) :=
  (lex text).map (fun l => l.map Prod.fst)

/-! ## Syntax -/

/-- Operands: literals, names and package-qualified names.  `pos` is the index
of the operand's first token in the token sequence. -/
inductive Operand where
  | intLit (digits : List Char) (pos : Nat)
  | strLit (body : List Char) (pos : Nat)
  | name (x : List Char) (pos : Nat)
  | qualified (pkg : List Char) (member : List Char) (pos : Nat)
  deriving DecidableEq, Repr

/-- Expressions: an operand, or a call of an operand on operands. -/
inductive Expression where
  | operand (o : Operand)
  | call (fn : Operand) (args : List Operand) (pos : Nat)
  deriving DecidableEq, Repr

/-- Statements: `x := e`, `const x = e`, and expression statements. -/
inductive Stmt where
  | define (x : List Char) (rhs : Expression) (pos : Nat)
  | const (x : List Char) (rhs : Expression) (pos : Nat)
  | expr (e : Expression) (pos : Nat)
  deriving DecidableEq, Repr

/-- One imported package: the import path and the position of its token. -/
structure ImportSpec where
  path : List Char
  pos : Nat
  deriving DecidableEq, Repr

/-- A function declaration without parameters or results. -/
structure FuncDecl where
  name : List Char
  body : List Stmt
  pos : Nat
  deriving DecidableEq, Repr

/-- A source file: package clause, imports, functions. -/
structure File where
  pkg : List Char
  imports : List ImportSpec
  funcs : List FuncDecl
  deriving DecidableEq, Repr

/-- Tokens paired with their index in the token sequence. -/
abbrev Toks := List (Nat × Token)

/-- The punctuation token spelled `s`. -/
def punct (s : String) : Token := Token.punct s.toList

/-- The keyword token spelled `s`. -/
def keyword (s : String) : Token := Token.kw s.toList

/-- Consume the token `t`. -/
def expect (t : Token) : Toks → Option Toks
  | (_, u) :: rest => if u = t then some rest else none
  | [] => none

/-- Whether the next token is `t`. -/
def nextIs (t : Token) : Toks → Bool
  | (_, u) :: _ => u = t
  | [] => false

/-- Operand = int_lit | string_lit | identifier | identifier "." identifier. -/
def parseOperand : Toks → Option (Operand × Toks)
  | (i, Token.int d) :: rest => some (Operand.intLit d i, rest)
  | (i, Token.str b) :: rest => some (Operand.strLit b i, rest)
  | (i, Token.ident x) :: rest =>
    match rest with
    | (_, dot) :: (_, Token.ident m) :: rest2 =>
      if dot = punct "." then some (Operand.qualified x m i, rest2)
      else some (Operand.name x i, rest)
    | _ => some (Operand.name x i, rest)
  | _ => none

/-- The rest of an argument list after an operand: { "," Operand } ")". -/
def parseArgsTail : Nat → Toks → Option (List Operand × Toks)
  | 0, _ => none
  | fuel + 1, ts =>
    if nextIs (punct ")") ts then some ([], ts.tail)
    else
      match expect (punct ",") ts with
      | none => none
      | some rest =>
        match parseOperand rest with
        | none => none
        | some (o, rest2) =>
          match parseArgsTail fuel rest2 with
          | none => none
          | some (os, rest3) => some (o :: os, rest3)

/-- Arguments = "(" [ Operand { "," Operand } ] ")", after the opening bracket. -/
def parseArgs (ts : Toks) : Option (List Operand × Toks) :=
  if nextIs (punct ")") ts then some ([], ts.tail)
  else
    match parseOperand ts with
    | none => none
    | some (o, rest) =>
      match parseArgsTail (rest.length + 1) rest with
      | none => none
      | some (os, rest2) => some (o :: os, rest2)

/-- The position of the first token. -/
def headPos : Toks → Nat
  | (i, _) :: _ => i
  | [] => 0

/-- Expression = Operand [ Arguments ]. -/
def parseExpression (ts : Toks) : Option (Expression × Toks) :=
  match parseOperand ts with
  | none => none
  | some (o, rest) =>
    if nextIs (punct "(") rest then
      match parseArgs rest.tail with
      | none => none
      | some (args, rest2) => some (Expression.call o args (headPos ts), rest2)
    else some (Expression.operand o, rest)

/-- Statement = "const" identifier "=" Expression | identifier ":=" Expression
| Expression. -/
def parseStmt (ts : Toks) : Option (Stmt × Toks) :=
  match ts with
  | (i, Token.kw k) :: (_, Token.ident x) :: (_, eq) :: rest =>
    if k = "const".toList ∧ eq = punct "=" then
      match parseExpression rest with
      | none => none
      | some (e, rest2) => some (Stmt.const x e i, rest2)
    else none
  | (i, Token.ident x) :: (_, op) :: rest =>
    if op = punct ":=" then
      match parseExpression rest with
      | none => none
      | some (e, rest2) => some (Stmt.define x e i, rest2)
    else
      match parseExpression ts with
      | none => none
      | some (e, rest2) => some (Stmt.expr e i, rest2)
  | _ =>
    match parseExpression ts with
    | none => none
    | some (e, rest2) => some (Stmt.expr e (headPos ts), rest2)

/-- StatementList = { Statement ";" }, up to the closing brace, which is consumed. -/
def parseStmts : Nat → Toks → Option (List Stmt × Toks)
  | 0, _ => none
  | fuel + 1, ts =>
    if nextIs (punct "\x7d") ts then some ([], ts.tail)
    else
      match parseStmt ts with
      | none => none
      | some (s, rest) =>
        match expect (punct ";") rest with
        | none => none
        | some rest2 =>
          match parseStmts fuel rest2 with
          | none => none
          | some (ss, rest3) => some (s :: ss, rest3)

/-- ImportSpecs = { string_lit ";" }, up to the closing bracket, which is consumed. -/
def parseImportSpecs : Toks → Option (List ImportSpec × Toks)
  | (i, Token.str p) :: (_, semi) :: rest =>
    if semi = punct ";" then
      match parseImportSpecs rest with
      | none => none
      | some (specs, rest2) => some ((ImportSpec.mk p i) :: specs, rest2)
    else none
  | (_, close) :: rest => if close = punct ")" then some ([], rest) else none
  | [] => none

/-- ImportDecl = "import" ( string_lit | "(" ImportSpecs ")" ) ";", after the keyword. -/
def parseImportDecl (ts : Toks) : Option (List ImportSpec × Toks) :=
  match ts with
  | (i, Token.str p) :: rest =>
    match expect (punct ";") rest with
    | none => none
    | some rest2 => some ([ImportSpec.mk p i], rest2)
  | (_, Token.punct o) :: rest =>
    if o = "(".toList then
      match parseImportSpecs rest with
      | none => none
      | some (specs, rest2) =>
        match expect (punct ";") rest2 with
        | none => none
        | some rest3 => some (specs, rest3)
    else none
  | _ => none

/-- FunctionDecl = "func" identifier "(" ")" "\x7b" StatementList "\x7d" ";",
after the keyword. -/
def parseFuncDecl (ts : Toks) : Option (FuncDecl × Toks) :=
  match ts with
  | (i, Token.ident f) :: rest =>
    match expect (punct "(") rest with
    | none => none
    | some r1 =>
      match expect (punct ")") r1 with
      | none => none
      | some r2 =>
        match expect (punct "\x7b") r2 with
        | none => none
        | some r3 =>
          match parseStmts (r3.length + 1) r3 with
          | none => none
          | some (body, r4) =>
            match expect (punct ";") r4 with
            | none => none
            | some r5 => some (FuncDecl.mk f body i, r5)
  | _ => none

/-- The declarations after the package clause: imports first, then functions. -/
def parseDecls : Nat → Bool → Toks → Option (List ImportSpec × List FuncDecl)
  | _, _, [] => some ([], [])
  | 0, _, _ :: _ => none
  | fuel + 1, importsAllowed, (_, t) :: rest =>
    if t = keyword "import" then
      if importsAllowed then
        match parseImportDecl rest with
        | none => none
        | some (specs, rest2) =>
          match parseDecls fuel true rest2 with
          | none => none
          | some (is, fs) => some (specs ++ is, fs)
      else none
    else if t = keyword "func" then
      match parseFuncDecl rest with
      | none => none
      | some (f, rest2) =>
        match parseDecls fuel false rest2 with
        | none => none
        | some (is, fs) => some (is, f :: fs)
    else none

/-- SourceFile = "package" identifier ";" { ImportDecl } { FunctionDecl }. -/
def parseToks (ts : Toks) : Option File :=
  match ts with
  | (_, pk) :: (_, Token.ident p) :: (_, semi) :: rest =>
    if pk = keyword "package" ∧ semi = punct ";" then
      match parseDecls (rest.length + 1) true rest with
      | none => none
      | some (is, fs) => some (File.mk p is fs)
    else none
  | _ => none

/-- Parse a token sequence; positions in the tree are token indices. -/
def parseFile (ts : List Token) : Option File := parseToks ts.enum

/-- Scan and parse a text. -/
def parseText (text : List Char) : Option File := (tokens text).bind parseFile

/-! ## The defect categories -/

/-- The name under which an imported package is referenced: the last segment
of its import path. -/
def importName (path : List Char) : List Char :=
  path.foldl (fun acc c => if c.toNat = 47 then [] else acc ++ [c]) []

/-- Concatenation of a list of lists. -/
def concat {α : Type} : List (List α) → List α
  | [] => []
  | l :: ls => l ++ concat ls

/-- The identifiers an operand refers to: a name, or the package of a qualified name. -/
def Operand.refs : Operand → List (List Char)
  | Operand.intLit _ _ => []
  | Operand.strLit _ _ => []
  | Operand.name x _ => [x]
  | Operand.qualified p _ _ => [p]

/-- The identifiers an expression refers to. -/
def Expression.refs : Expression → List (List Char)
  | Expression.operand o => o.refs
  | Expression.call fn args _ => fn.refs ++ concat (args.map Operand.refs)

/-- The identifiers a statement reads. -/
def Stmt.refs : Stmt → List (List Char)
  | Stmt.define _ e _ => e.refs
  | Stmt.const _ e _ => e.refs
  | Stmt.expr e _ => e.refs

/-- The identifiers read by a list of statements. -/
def bodyRefs (body : List Stmt) : List (List Char) := concat (body.map Stmt.refs)

/-- The identifiers referenced in the file after the import block. -/
def File.refs (f : File) : List (List Char) :=
  concat (f.funcs.map (fun g => bodyRefs g.body))

/-- Unused imports: imported packages never referenced in the rest of the file. -/
def unusedImports (f : File) : List ImportSpec :=
  f.imports.filter (fun i => decide (importName i.path ∉ f.refs))

/-- The local variables declared by `:=` in a list of statements, in order. -/
def localsDeclared : List Stmt → List (List Char)
  | [] => []
  | Stmt.define x _ _ :: rest => x :: localsDeclared rest
  | _ :: rest => localsDeclared rest

/-- Unused local bindings: variables assigned by `:=` and not read by any
later statement; each with the position of its declaration. -/
def unusedLocals : List Stmt → List (List Char × Nat)
  | [] => []
  | Stmt.define x _ pos :: rest =>
    if x ∈ bodyRefs rest then unusedLocals rest else (x, pos) :: unusedLocals rest
  | _ :: rest => unusedLocals rest

/-- The numeric literals of an operand. -/
def Operand.ints : Operand → List (List Char × Nat)
  | Operand.intLit d pos => [(d, pos)]
  | _ => []

/-- The numeric literals of an expression. -/
def Expression.ints : Expression → List (List Char × Nat)
  | Expression.operand o => o.ints
  | Expression.call fn args _ => fn.ints ++ concat (args.map Operand.ints)

/-- Magic numbers of a statement: its numeric literals, unless the statement
binds them to a named constant. -/
def Stmt.magic : Stmt → List (List Char × Nat)
  | Stmt.define _ e _ => e.ints
  | Stmt.const _ _ _ => []
  | Stmt.expr e _ => e.ints

/-- The magic numbers of a file, with their positions. -/
def magicNumbers (f : File) : List (List Char × Nat) :=
  concat (f.funcs.map (fun g => concat (g.body.map Stmt.magic)))

/-- Functions of the packages `fmt`, `os` and `io` whose last result is an `error`. -/
def errorReturning : List (List Char × List Char) :=
  [("fmt", "Print"), ("fmt", "Printf"), ("fmt", "Println"),
   ("fmt", "Fprint"), ("fmt", "Fprintf"), ("fmt", "Fprintln"),
   ("fmt", "Scan"), ("fmt", "Scanf"), ("fmt", "Scanln"),
   ("os", "Chdir"), ("os", "Mkdir"), ("os", "Remove"), ("os", "Rename"),
   ("os", "Open"), ("os", "Create"), ("os", "ReadFile"), ("os", "WriteFile"),
   ("io", "Copy"), ("io", "ReadAll"), ("io", "WriteString")].map
    (fun p => (p.1.toList, p.2.toList))

/-- Whether `pkg.member` can fail. -/
def returnsError (pkg member : List Char) : Bool := (pkg, member) ∈ errorReturning

/-- An unchecked error: an expression statement calling a function that returns
an error; the call's results are discarded.  Gives the callee and the call's position. -/
def Stmt.unchecked : Stmt → List ((List Char × List Char) × Nat)
  | Stmt.expr (Expression.call (Operand.qualified p m _) _ pos) _ =>
    if returnsError p m then [((p, m), pos)] else []
  | _ => []

/-- The unchecked-error calls of a file. -/
def uncheckedErrors (f : File) : List ((List Char × List Char) × Nat) :=
  concat (f.funcs.map (fun g => concat (g.body.map Stmt.unchecked)))

/-- The lines (numbered from 1) of a text that are longer than `t` characters. -/
def longLines (t : Nat) (text : List Char) : List Nat :=
  ((List.range (lineCount text)).filter
    (fun i => decide (t < (nthLine text i).length))).map (fun i => i + 1)

/-- Display width of a line when tabs advance to the next multiple of `w`. -/
def displayWidth (w : Nat) (line : List Char) : Nat :=
  line.foldl (fun col c => if c = tab then col + (w - col % w) else col + 1) 0

/-- The lines (numbered from 1) of a text whose display width exceeds `t`. -/
def wideLines (w t : Nat) (text : List Char) : List Nat :=
  ((List.range (lineCount text)).filter
    (fun i => decide (t < displayWidth w (nthLine text i)))).map (fun i => i + 1)

/-! ## A lint pass -/

/-- The five rules. -/
inductive Rule where
  | unusedImport
  | unusedVariable
  | magicNumber
  | uncheckedError
  | maxLineLength
  deriving DecidableEq, Repr

/-- A finding: the rule and the line it is reported at. -/
structure Finding where
  rule : Rule
  line : Nat
  deriving DecidableEq, Repr

/-- The line of the token at index `pos`. -/
def lineOf (lexed : List (Token × Nat)) (pos : Nat) : Nat :=
  match lexed.get? pos with
  | some p => p.2
  | none => 0

/-- The findings of the five rules on a parsed file. -/
def findings (maxLen : Nat) (text : List Char) (lexed : List (Token × Nat)) (f : File) :
    List Finding :=
  (unusedImports f).map (fun i => Finding.mk Rule.unusedImport (lineOf lexed i.pos))
  ++ (concat (f.funcs.map (fun g => unusedLocals g.body))).map
      (fun v => Finding.mk Rule.unusedVariable (lineOf lexed v.2))
  ++ (magicNumbers f).map (fun m => Finding.mk Rule.magicNumber (lineOf lexed m.2))
  ++ (uncheckedErrors f).map (fun c => Finding.mk Rule.uncheckedError (lineOf lexed c.2))
  ++ (longLines maxLen text).map (fun l => Finding.mk Rule.maxLineLength l)

/-- Modelled from the spec: the lint pass is not part of the repository.  It
scans and parses the text and applies the five rules unused-import,
unused-variable, magic-number, unchecked-error and max-line-length = `maxLen`,
each rule reporting every occurrence of its defect category at its line. -/
def lint (maxLen : Nat) (text : List Char) : Option (List Finding) :=
  match lex text with
  | none => none
  | some lexed =>
    match parseFile (lexed.map Prod.fst) with
    | none => none
    | some f => some (findings maxLen text lexed f)

/-- The unused checks of the Go compiler: every import is used and every local
variable of every function is used. -/
def passesUnusedChecks (f : File) : Bool :=
  (unusedImports f).isEmpty && f.funcs.all (fun g => (unusedLocals g.body).isEmpty)

/-- A text is accepted when it scans, parses and passes the unused checks. -/
def compiles (text : List Char) : Bool :=
  match parseText text with
  | none => false
  | some f => passesUnusedChecks f

/-! ## The behaviour of `main` -/

/-- The values `main` handles. -/
inductive Value where
  | int (n : Int)
  | str (s : List Char)
  deriving DecidableEq, Repr

/-- The default format of a value: decimal for integers, the text of a string. -/
def Value.format : Value → List Char
  | Value.int n => if n < 0 then Char.ofNat 45 :: Nat.toDigits 10 n.natAbs
                   else Nat.toDigits 10 n.natAbs
  | Value.str s => s

/-- The operands of `fmt.Println`, formatted and separated by spaces. -/
def formatOperands : List Value → List Char
  | [] => []
  | [v] => v.format
  | v :: vs => v.format ++ Char.ofNat 32 :: formatOperands vs

/-- Standard output: the characters written so far.  Writes are taken to succeed. -/
abbrev Stdout := List Char

/-- The function `fmt.Println`: writes its operands and a newline; returns the
new output and the number of bytes written (the error result is `nil`). -/
def Println (args : List Value) (out : Stdout) : Stdout × Nat :=
  (out ++ formatOperands args ++ [newline], (formatOperands args).length + 1)

set_option linter.unusedVariables false in
/-- The function `main` of `bad_go.go`, lines 9 to 21. -/
def main (out : Stdout) : Stdout :=
  let x : Int := 42
  let y : Int := 10
  let out1 := (Println [Value.int x] out).1
  let veryLongVariableName : List Char :=
    "This is a very long string that might trigger a line length warning in some linters and configurations".toList
  let out2 := (Println [Value.str veryLongVariableName] out1).1
  out2

/-- Whether `pat` occurs in `s` as a contiguous block. -/
def occursIn (pat : List Char) : List Char → Bool
  | [] => pat.isEmpty
  | c :: cs => pat.isPrefixOf (c :: cs) || occursIn pat cs

/-- The statements of the function `fname` in a text. -/
def funcBody (text : List Char) (fname : String) : Option (List Stmt) :=
  match parseText text with
  | none => none
  | some f =>
    match f.funcs.find? (fun g => decide (g.name = fname.toList)) with
    | none => none
    | some g => some g.body

/-- The value of a decimal literal. -/
def digitsValue (digits : List Char) : Nat :=
  digits.foldl (fun n c => 10 * n + (c.toNat - 48)) 0

/-- The local variables in scope, most recent first. -/
abbrev Env := List (List Char × Value)

/-- The value bound to `x`. -/
def lookupVar (x : List Char) : Env → Option Value
  | [] => none
  | (y, v) :: rest => if y = x then some v else lookupVar x rest

/-- The value of an operand; string literals with escapes and qualified names
have none here. -/
def evalOperand (env : Env) : Operand → Option Value
  | Operand.intLit d _ => some (Value.int (digitsValue d))
  | Operand.strLit b _ => if backslash ∈ b then none else some (Value.str b)
  | Operand.name x _ => lookupVar x env
  | Operand.qualified _ _ _ => none

/-- The values of the arguments of a call. -/
def evalArgs (env : Env) : List Operand → Option (List Value)
  | [] => some []
  | o :: os =>
    match evalOperand env o, evalArgs env os with
    | some v, some vs => some (v :: vs)
    | _, _ => none

/-- Execute one statement: `x := operand` binds `x`; `fmt.Println(args)` writes
to standard output; other statements are outside the executed subset. -/
def execStmt (env : Env) (out : Stdout) : Stmt → Option (Env × Stdout)
  | Stmt.define x (Expression.operand o) _ =>
    match evalOperand env o with
    | some v => some ((x, v) :: env, out)
    | none => none
  | Stmt.expr (Expression.call (Operand.qualified p m _) args _) _ =>
    if p = "fmt".toList ∧ m = "Println".toList then
      match evalArgs env args with
      | some vs => some (env, (Println vs out).1)
      | none => none
    else none
  | _ => none

/-- Execute statements top to bottom. -/
def execBody (env : Env) (out : Stdout) : List Stmt → Option (Env × Stdout)
  | [] => some (env, out)
  | s :: rest =>
    match execStmt env out s with
    | some (env2, out2) => execBody env2 out2 rest
    | none => none

/-- Execute the statements of the function `main` of a text top to bottom on a
standard output, leaving the compiler's checks aside: what the statements do
when executed, not what `go run` does with the text. -/
def execMain (text : List Char) (out : Stdout) : Option Stdout :=
  match funcBody text "main" with
  | none => none
  | some body => (execBody [] out body).map Prod.snd

/-- The command `go run` on a text: the program is built first, and `main` is
executed only when the text scans, parses and passes the unused checks;
`none` when the build fails or the execution leaves the executed subset. -/
def goRun (text : List Char) (out : Stdout) : Option Stdout :=
  if compiles text then execMain text out else none

/-- Standard output after `go run`: a program that is not built writes nothing. -/
def stdoutAfterGoRun (text : List Char) (out : Stdout) : Stdout :=
  match goRun text out with
  | some out2 => out2
  | none => out

/-- The fixture without its unused imports (lines 5 and 6) and without its
unused variable (line 13). -/
def repairedLines : List String :=
  ((fixtureLines.eraseIdx 12).eraseIdx 5).eraseIdx 4

/-- The text of the repaired fixture. -/
def repairedText : List Char := unlines (repairedLines.map String.toList)

/-- Whether `x` is declared by `:=` and read by a later statement. -/
def readAfterDefine (x : List Char) : List Stmt → Bool
  | [] => false
  | Stmt.define y _ _ :: rest =>
    if y = x then decide (x ∈ bodyRefs rest) else readAfterDefine x rest
  | _ :: rest => readAfterDefine x rest

/-- The string literal of line 19, without its quotes. -/
def longLiteral : List Char :=
  "This is a very long string that might trigger a line length warning in some linters and configurations".toList

/-- The names of the packages a text imports, with the line of each import. -/
def importsOf (text : List Char) : Option (List (List Char × Nat)) :=
  match lex text with
  | none => none
  | some lexed =>
    match parseFile (lexed.map Prod.fst) with
    | none => none
    | some f => some (f.imports.map (fun i => (importName i.path, lineOf lexed i.pos)))

/-- The names of the unused imports of a text. -/
def unusedImportNames (text : List Char) : Option (List (List Char)) :=
  (parseText text).map (fun f => (unusedImports f).map (fun i => importName i.path))

/-- The unused local variables of a text, function by function. -/
def unusedLocalNames (text : List Char) : Option (List (List (List Char))) :=
  (parseText text).map (fun f => f.funcs.map (fun g => (unusedLocals g.body).map Prod.fst))

/-- The magic numbers of a text: digits and token position. -/
def magicNumbersOf (text : List Char) : Option (List (List Char × Nat)) :=
  (parseText text).map magicNumbers

/-- The unchecked-error calls of a text: callee and token position. -/
def uncheckedErrorsOf (text : List Char) : Option (List ((List Char × List Char) × Nat)) :=
  (parseText text).map uncheckedErrors

/-- The line at which a text's token number `pos` is scanned. -/
def lineOfToken (text : List Char) (pos : Nat) : Nat :=
  match lex text with
  | none => 0
  | some lexed => lineOf lexed pos

/-- The fixture with the comment of line 10 reworded; nothing else is changed. -/
def rewordedLines : List String :=
  fixtureLines.set 9
    "\t// Magic number: the literal below is written inline, where a reader cannot tell what the value stands for"

/-- The text of the reworded fixture. -/
def rewordedText : List Char := unlines (rewordedLines.map String.toList)

/-- In string mode the scanned part of the literal, with its opening quote, lies
on the current line, of which `p` is the part already consumed. -/
def ModeOK (st : LexState) (p : List Char) : Prop :=
  ∀ acc esc, st.mode = Mode.string acc esc → acc.length + 1 ≤ p.length

/-! ## Facts about the scanner -/

set_option maxRecDepth 1000000

/-- The double quote is not the newline. -/
theorem dquote_ne_newline : dquote ≠ newline := by decide

/-- A character that begins a lexical element completes no string literal. -/
theorem transStart_str {c : Char} {b : List Char} : Token.str b ∉ (transStart c).2 := by
  unfold transStart
  split_ifs
  all_goals simp

/-- A word is never a string literal token. -/
theorem wordToken_ne_str (s b : List Char) : wordToken s ≠ Token.str b := by
  unfold wordToken
  split_ifs
  all_goals simp

/-- A string literal is completed only by the closing quote, in string mode. -/
theorem trans_str {m : Mode} {c : Char} {b : List Char} (h : Token.str b ∈ (trans m c).2) :
    ∃ esc, m = Mode.string b esc ∧ c = dquote := by
  cases m <;> simp only [trans] at h
  case start => exact absurd h transStart_str
  case word acc =>
    split_ifs at h
    · simp at h
    · simp only [List.mem_cons] at h
      rcases h with h | h
      · exact absurd h.symm (wordToken_ne_str _ _)
      · exact absurd h transStart_str
  case number acc =>
    split_ifs at h
    · simp at h
    · simp at h
    · simp only [List.mem_cons] at h
      rcases h with h | h
      · simp at h
      · exact absurd h transStart_str
  case string acc esc =>
    split_ifs at h <;> simp at h
    subst h
    exact ⟨esc, rfl, by assumption⟩
  case bad => simp at h
  all_goals (split_ifs at h <;> simp at h)

/-- String mode is entered from outside only by an opening quote. -/
theorem transStart_string {c : Char} {acc : List Char} {esc : Bool}
    (h : (transStart c).1 = Mode.string acc esc) : c = dquote ∧ acc = [] := by
  unfold transStart at h
  split_ifs at h
  simp only [Mode.string.injEq] at h
  exact ⟨by assumption, h.1.symm⟩

/-- String mode is entered by a quote or continued by a character other than a newline. -/
theorem trans_string {m : Mode} {c : Char} {acc : List Char} {esc : Bool}
    (h : (trans m c).1 = Mode.string acc esc) :
    c ≠ newline ∧ (acc = [] ∨ ∃ acc0 esc0, m = Mode.string acc0 esc0 ∧ acc = acc0 ++ [c]) := by
  have key : ∀ {c : Char}, (transStart c).1 = Mode.string acc esc →
      c ≠ newline ∧ (acc = [] ∨ ∃ acc0 esc0, m = Mode.string acc0 esc0 ∧ acc = acc0 ++ [c]) := by
    intro c hc
    obtain ⟨h1, h2⟩ := transStart_string hc
    exact ⟨h1 ▸ dquote_ne_newline, Or.inl h2⟩
  cases m <;> simp only [trans] at h
  case start => exact key h
  case word a =>
    split_ifs at h
    exact key h
  case number a =>
    split_ifs at h
    exact key h
  case string a e =>
    split_ifs at h <;> simp only [Mode.string.injEq] at h
    all_goals exact ⟨by assumption, Or.inr ⟨a, e, rfl, h.1.symm⟩⟩
  case bad => simp at h
  all_goals split_ifs at h

/-- The first line of a text that starts with a newline-free part. -/
theorem nthLine_append_zero (p t : List Char) (hp : newline ∉ p) :
    nthLine (p ++ t) 0 = p ++ nthLine t 0 := by
  induction p with
  | nil => rfl
  | cons c p ih =>
    simp only [List.mem_cons, not_or] at hp
    have hc : c ≠ newline := fun h => hp.1 h.symm
    simp [nthLine, hc, ih hp.2]

/-- Later lines do not depend on a newline-free part before the text. -/
theorem nthLine_append_succ (p t : List Char) (n : Nat) (hp : newline ∉ p) :
    nthLine (p ++ t) (n + 1) = nthLine t (n + 1) := by
  induction p with
  | nil => rfl
  | cons c p ih =>
    simp only [List.mem_cons, not_or] at hp
    have hc : c ≠ newline := fun h => hp.1 h.symm
    simp [nthLine, hc, ih hp.2]

/-- Beyond the last line every line is empty. -/
theorem nthLine_of_lineCount_le (text : List Char) (n : Nat) (h : lineCount text ≤ n) :
    nthLine text n = [] := by
  induction text generalizing n with
  | nil => cases n <;> rfl
  | cons c cs ih =>
    cases n with
    | zero =>
      simp only [lineCount] at h
      split_ifs at h
      · omega
      · have := ih 0 h
        have h1 : 1 ≤ lineCount cs := by
          clear ih h this
          induction cs with
          | nil => simp [lineCount]
          | cons d ds ihd => simp only [lineCount]; split_ifs <;> omega
        omega
    | succ n =>
      simp only [lineCount] at h
      simp only [nthLine]
      split_ifs at h ⊢
      · exact ih n (by omega)
      · exact ih (n + 1) h

/-- The line counter follows the newlines. -/
theorem lexStep_line (st : LexState) (c : Char) :
    (lexStep st c).line = if c = newline then st.line + 1 else st.line := by
  unfold lexStep
  split_ifs <;> rfl

/-- The mode after a character is that of the transition. -/
theorem lexStep_mode (st : LexState) (c : Char) : (lexStep st c).mode = (trans st.mode c).1 := by
  unfold lexStep
  split_ifs <;> rfl

/-- A string literal reported after a character was reported before, or is completed by it on the current line. -/
theorem lexStep_str {st : LexState} {c : Char} {b : List Char} {l : Nat}
    (h : (Token.str b, l) ∈ (lexStep st c).toks) :
    (Token.str b, l) ∈ st.toks ∨ (l = st.line ∧ ∃ esc, st.mode = Mode.string b esc ∧ c = dquote) := by
  have key : (Token.str b, l) ∈ st.toks ++ (trans st.mode c).2.map (fun t => (t, st.line)) →
      (Token.str b, l) ∈ st.toks ∨
        (l = st.line ∧ ∃ esc, st.mode = Mode.string b esc ∧ c = dquote) := by
    intro hm
    rcases List.mem_append.1 hm with hm | hm
    · exact Or.inl hm
    · obtain ⟨t, ht, he⟩ := List.mem_map.1 hm
      simp only [Prod.mk.injEq] at he
      obtain ⟨rfl, rfl⟩ := he
      exact Or.inr ⟨rfl, trans_str ht⟩
  unfold lexStep at h
  simp only at h
  split_ifs at h
  · rcases List.mem_append.1 h with h | h
    · exact key h
    · simp [semicolon] at h
  · exact key h
  · exact key h

/-- Every string literal reported while scanning `text` after the newline-free part `p` of the current line was reported before, or fits with its quotes in the line it is reported at. -/
theorem lexRun_str (text : List Char) : ∀ (st : LexState) (p : List Char), newline ∉ p →
    ModeOK st p → ∀ b l, (Token.str b, l) ∈ (lexRun st text).toks →
      (Token.str b, l) ∈ st.toks ∨
        (st.line ≤ l ∧ b.length + 2 ≤ (nthLine (p ++ text) (l - st.line)).length) := by
  induction text with
  | nil => intro st p _ _ b l h; exact Or.inl h
  | cons c cs ih =>
    intro st p hp hok b l h
    simp only [lexRun] at h
    by_cases hc : c = newline
    · -- a newline: the next line starts
      have hok2 : ModeOK (lexStep st c) [] := by
        intro acc esc hm
        rw [lexStep_mode] at hm
        exact absurd hc (trans_string hm).1
      rcases ih (lexStep st c) [] (by simp) hok2 b l h with h1 | ⟨h1, h2⟩
      · rcases lexStep_str h1 with h3 | ⟨_, _, _, h4⟩
        · exact Or.inl h3
        · exact absurd (h4 ▸ hc) dquote_ne_newline
      · rw [lexStep_line, if_pos hc] at h1 h2
        refine Or.inr ⟨by omega, ?_⟩
        obtain ⟨k, hk⟩ : ∃ k, l - st.line = k + 1 := ⟨l - st.line - 1, by omega⟩
        rw [hk, nthLine_append_succ _ _ _ hp, hc]
        have : l - (st.line + 1) = k := by omega
        rw [this] at h2
        simpa [nthLine] using h2
    · have hp2 : newline ∉ p ++ [c] := by
        simp only [List.mem_append, List.mem_singleton, not_or]
        exact ⟨hp, fun h => hc h.symm⟩
      have hok2 : ModeOK (lexStep st c) (p ++ [c]) := by
        intro acc esc hm
        rw [lexStep_mode] at hm
        rcases (trans_string hm).2 with h1 | ⟨a0, e0, h1, h2⟩
        · simp [h1]
        · have := hok a0 e0 h1
          simp [h2]; omega
      rcases ih (lexStep st c) (p ++ [c]) hp2 hok2 b l h with h1 | ⟨h1, h2⟩
      · rcases lexStep_str h1 with h3 | ⟨h3, esc, h4, h5⟩
        · exact Or.inl h3
        · refine Or.inr ⟨by omega, ?_⟩
          have := hok b esc h4
          rw [h3, Nat.sub_self, nthLine_append_zero _ _ hp]
          simp only [List.length_append, nthLine, if_neg hc, List.length_cons]
          omega
      · rw [lexStep_line, if_neg hc] at h1 h2
        refine Or.inr ⟨h1, ?_⟩
        simpa using h2

/-- The end of the text completes no string literal. -/
theorem flush_str {m : Mode} {out : List Token} {b : List Char} (h : flush m = some out) :
    Token.str b ∉ out := by
  cases m <;> simp [flush] at h <;> subst h <;> simp
  exact (wordToken_ne_str _ _).symm

/-- Every string literal the scanner reports lies, with its two quotes, within
the line it is reported at. -/
theorem lex_str_line {text : List Char} {lexed : List (Token × Nat)} (h : lex text = some lexed)
    {b : List Char} {l : Nat} (hm : (Token.str b, l) ∈ lexed) :
    1 ≤ l ∧ b.length + 2 ≤ (nthLine text (l - 1)).length := by
  unfold lex lexFinish at h
  cases hf : flush (lexRun lexInit text).mode with
  | none => simp [hf] at h
  | some out =>
    simp only [hf, Option.some.injEq] at h
    have hmem : (Token.str b, l) ∈ (lexRun lexInit text).toks := by
      subst h
      have hout : (Token.str b, l) ∉ out.map (fun t => (t, (lexRun lexInit text).line)) := by
        intro hx
        obtain ⟨t, ht, he⟩ := List.mem_map.1 hx
        simp only [Prod.mk.injEq] at he
        exact flush_str hf (he.1 ▸ ht)
      split_ifs at hm
      · simp only [List.mem_append, List.mem_singleton] at hm
        rcases hm with (hm | hm) | hm
        · exact hm
        · exact absurd hm hout
        · simp [semicolon] at hm
      · simp only [List.mem_append] at hm
        rcases hm with hm | hm
        · exact hm
        · exact absurd hm hout
    have hok : ModeOK lexInit [] := by intro acc esc hx; simp [lexInit] at hx
    rcases lexRun_str text lexInit [] (by simp) hok b l hmem with h1 | h1
    · simp [lexInit] at h1
    · simpa [lexInit] using h1

/-! ## The fixture -/

/-- The lines of the embedded text are the lines of the fixture. -/
theorem fixture_lines_agree :
    (List.range 21).map (nthLine fixtureText) = fixtureLines.map String.toList ∧
      lineCount fixtureText = 22 ∧ nthLine fixtureText 21 = [] := by decide

/-- The token sequence of the fixture contains the long string literal. -/
theorem fixture_tokens_long :
    ∃ toks, tokens fixtureText = some toks ∧ Token.str longLiteral ∈ toks :=
  ⟨(tokens fixtureText).getD [], by decide, by decide⟩

/-- In every text with the fixture's token sequence the scanner reports the long
string literal, on a line longer than 100 characters. -/
theorem long_literal_in_layout {text : List Char} (h : tokens text = tokens fixtureText) :
    ∃ lexed l, lex text = some lexed ∧ (Token.str longLiteral, l) ∈ lexed ∧ 1 ≤ l ∧
      104 ≤ (nthLine text (l - 1)).length := by
  obtain ⟨toks, h1, h2⟩ := fixture_tokens_long
  rw [h1] at h
  unfold tokens at h
  cases hl : lex text with
  | none => simp [hl] at h
  | some lexed =>
    simp only [hl, Option.map_some', Option.some.injEq] at h
    rw [← h] at h2
    obtain ⟨⟨t, l⟩, hm, ht⟩ := List.mem_map.1 h2
    simp only at ht
    subst ht
    have := lex_str_line hl hm
    have hlen : longLiteral.length = 102 := by decide
    exact ⟨lexed, l, rfl, hm, this.1, by omega⟩

/-- A non-empty line lies within the text. -/
theorem lt_lineCount_of_nthLine {text : List Char} {n : Nat}
    (h : 0 < (nthLine text n).length) : n < lineCount text := by
  by_contra hn
  rw [nthLine_of_lineCount_le text n (by omega)] at h
  simp at h

/-- C1: the import block names "fmt" (line 4), "os" (line 5) and "io" (line 6);
the imports never referenced in the rest of the file are "os" and "io", two
packages and not only the "io" that the comment of line 6 labels. -/
theorem fixture_unused_imports :
    importsOf fixtureText = some [("fmt".toList, 4), ("os".toList, 5), ("io".toList, 6)] ∧
      unusedImportNames fixtureText = some ["os".toList, "io".toList] := by decide

/-- C2: the lint pass with the rules unused-import, unused-variable,
magic-number, unchecked-error and max-line-length = 100 reports eight findings
on the fixture: unused imports at lines 5 and 6, the unused variable at line 13,
magic numbers at lines 11 and 13, unchecked errors at lines 16 and 20 and the
long line 19. -/
theorem fixture_lint_findings :
    lint 100 fixtureText = some
      [Finding.mk Rule.unusedImport 5, Finding.mk Rule.unusedImport 6,
       Finding.mk Rule.unusedVariable 13,
       Finding.mk Rule.magicNumber 11, Finding.mk Rule.magicNumber 13,
       Finding.mk Rule.uncheckedError 16, Finding.mk Rule.uncheckedError 20,
       Finding.mk Rule.maxLineLength 19] := by decide

/-- C3, as stated: the fixture parses, and it does not pass the unused checks
of the Go compiler, so it is not accepted. -/
theorem fixture_not_compilable :
    (parseText fixtureText).map passesUnusedChecks = some false ∧
      compiles fixtureText = false := by decide

/-- C3, amended: the fixture is syntactically valid, and it fails the unused
checks: the import "io" and the local variable `y` are unused, while "fmt" is
referenced and `x` and `veryLongVariableName` are read. -/
theorem fixture_parses_with_unused :
    (parseText fixtureText).isSome = true ∧
      (∃ names, unusedImportNames fixtureText = some names ∧
        "io".toList ∈ names ∧ "fmt".toList ∉ names) ∧
      unusedLocalNames fixtureText = some [["y".toList]] ∧
      compiles fixtureText = false :=
  ⟨by decide, ⟨["os".toList, "io".toList], by decide, by decide, by decide⟩,
    by decide, by decide⟩

/-- C4: the bare numeric literals of `main` that are not bound to a named
constant are 42 (line 11) and 10 (line 13): two magic numbers, not one. -/
theorem fixture_magic_numbers :
    magicNumbersOf fixtureText = some [("42".toList, 20), ("10".toList, 24)] ∧
      lineOfToken fixtureText 20 = 11 ∧ lineOfToken fixtureText 24 = 13 := by decide

/-- C5: the calls of `main` whose error result is discarded are the two calls
of `fmt.Println`, at lines 16 and 20: two unchecked errors, not one. -/
theorem fixture_unchecked_errors :
    uncheckedErrorsOf fixtureText =
        some [(("fmt".toList, "Println".toList), 26), (("fmt".toList, "Println".toList), 37)] ∧
      lineOfToken fixtureText 26 = 16 ∧ lineOfToken fixtureText 37 = 20 := by decide

/-- C6: `main` declares the locals `x`, `y` and `veryLongVariableName`; exactly
one of them, `y`, is assigned and never read afterwards; `x` and
`veryLongVariableName` are each read after their assignment. -/
theorem fixture_unused_local :
    (funcBody fixtureText "main").map localsDeclared
        = some ["x".toList, "y".toList, "veryLongVariableName".toList] ∧
      (funcBody fixtureText "main").map (fun b => (unusedLocals b).map Prod.fst)
        = some ["y".toList] ∧
      (funcBody fixtureText "main").map (readAfterDefine "x".toList) = some true ∧
      (funcBody fixtureText "main").map (readAfterDefine "y".toList) = some false ∧
      (funcBody fixtureText "main").map (readAfterDefine "veryLongVariableName".toList)
        = some true := by decide

/-- The wide lines of the fixture for every threshold from 80 to 120 and every
tab width from 1 to 8. -/
theorem fixture_wide_lines_all :
    ∀ w ∈ Finset.Icc 1 8, ∀ t ∈ Finset.Icc 80 120, wideLines w t fixtureText = [19] := by
  decide!

/-- C7: for every threshold `t` from 80 to 120 and every tab width `w` from 1 to
8, exactly one line of the fixture has display width greater than `t`, and it is
line 19. -/
theorem fixture_single_wide_line (t w : Nat) (h1 : 80 ≤ t) (h2 : t ≤ 120) (h3 : 1 ≤ w)
    (h4 : w ≤ 8) : wideLines w t fixtureText = [19] :=
  fixture_wide_lines_all w (Finset.mem_Icc.2 ⟨h3, h4⟩) t (Finset.mem_Icc.2 ⟨h1, h2⟩)

/-- C7 at threshold 100 and tab width 4. -/
theorem fixture_single_wide_line_witness : wideLines 4 100 fixtureText = [19] :=
  fixture_single_wide_line 100 4 (by decide) (by decide) (by decide) (by decide)

/-- C8, as stated: rewording the comment of line 10 leaves the token sequence
unchanged and raises the number of lines longer than 100 from one to two. -/
theorem cosmetic_change_adds_long_line :
    tokens rewordedText = tokens fixtureText ∧
      longLines 100 fixtureText = [19] ∧ longLines 100 rewordedText = [10, 19] ∧
      (longLines 100 rewordedText).length ≠ (longLines 100 fixtureText).length := by
  decide!

/-- C8, amended: in every text with the token sequence of the fixture the unused
imports, the unused variables, the magic numbers and the unchecked-error calls
are those of the fixture, and at least one line is longer than 100. -/
theorem cosmetic_stability (text : List Char) (h : tokens text = tokens fixtureText) :
    unusedImportNames text = unusedImportNames fixtureText ∧
      unusedLocalNames text = unusedLocalNames fixtureText ∧
      magicNumbersOf text = magicNumbersOf fixtureText ∧
      uncheckedErrorsOf text = uncheckedErrorsOf fixtureText ∧
      1 ≤ (longLines 100 text).length := by
  refine ⟨?_, ?_, ?_, ?_, ?_⟩
  · simp only [unusedImportNames, parseText, h]
  · simp only [unusedLocalNames, parseText, h]
  · simp only [magicNumbersOf, parseText, h]
  · simp only [uncheckedErrorsOf, parseText, h]
  · obtain ⟨lexed, l, _, _, hl, hlen⟩ := long_literal_in_layout h
    have hin : l - 1 ∈ (List.range (lineCount text)).filter
        (fun i => decide (100 < (nthLine text i).length)) := by
      rw [List.mem_filter]
      exact ⟨List.mem_range.2 (lt_lineCount_of_nthLine (by omega)), by simpa using by omega⟩
    have hpos := List.length_pos_of_mem hin
    simp only [longLines, List.length_map]
    exact hpos

/-- C8, amended, at the reworded fixture. -/
theorem cosmetic_stability_witness :
    tokens rewordedText = tokens fixtureText ∧
      unusedImportNames rewordedText = unusedImportNames fixtureText ∧
      unusedLocalNames rewordedText = unusedLocalNames fixtureText ∧
      magicNumbersOf rewordedText = magicNumbersOf fixtureText ∧
      uncheckedErrorsOf rewordedText = uncheckedErrorsOf fixtureText ∧
      1 ≤ (longLines 100 rewordedText).length :=
  ⟨by decide!, cosmetic_stability rewordedText (by decide!)⟩

/-- A statement appends to the output written before it. -/
theorem execStmt_append (env : Env) (out : Stdout) (s : Stmt) :
    execStmt env out s = (execStmt env [] s).map (fun r => (r.1, out ++ r.2)) := by
  unfold execStmt
  split
  · split <;> simp
  · split
    · split <;> simp [Println]
    · simp
  · simp

/-- A list of statements appends to the output written before it. -/
theorem execBody_append (body : List Stmt) : ∀ (env : Env) (out : Stdout),
    execBody env out body = (execBody env [] body).map (fun r => (r.1, out ++ r.2)) := by
  induction body with
  | nil => intro env out; simp [execBody]
  | cons s rest ih =>
    intro env out
    simp only [execBody]
    rw [execStmt_append env out s]
    cases h : execStmt env [] s with
    | none => simp
    | some r =>
      obtain ⟨e2, o2⟩ := r
      simp only [Option.map_some']
      rw [ih e2 (out ++ o2), ih e2 o2]
      cases execBody e2 [] rest <;> simp

/-- The function `main` appends to the output written before it. -/
theorem main_append (out : Stdout) : main out = out ++ main [] := by
  simp [main, Println]

/-- Executing the statements scanned and parsed from the text of the fixture is
the function `main`. -/
theorem execMain_fixture (out : Stdout) : execMain fixtureText out = some (main out) := by
  have h0 : execMain fixtureText [] = some (main []) := by decide
  unfold execMain at h0 ⊢
  cases hb : funcBody fixtureText "main" with
  | none => simp [hb] at h0
  | some body =>
    simp only [hb] at h0 ⊢
    rw [execBody_append body [] out, main_append out]
    cases he : execBody [] [] body with
    | none => simp [he] at h0
    | some r =>
      simp only [he, Option.map_some', Option.some.injEq] at h0 ⊢
      rw [h0]

/-- With the unused imports and the unused variable removed the text is built,
and `go run` writes the two lines. -/
theorem goRun_repaired :
    compiles repairedText = true ∧
      goRun repairedText [] = some (unlines ["42".toList, longLiteral]) := by
  decide!

/-- C9, as stated: run by the Go toolchain, the fixture writes no line at all:
it fails the unused checks, so it is not built, `main` is not executed and
standard output stays empty instead of holding the two lines. -/
theorem fixture_go_run_fails :
    goRun fixtureText [] = none ∧
      stdoutAfterGoRun fixtureText [] = [] ∧
      stdoutAfterGoRun fixtureText [] ≠ unlines ["42".toList, longLiteral] := by
  decide

/-- C9, amended: as it stands the fixture is not run by `go run`, which writes
nothing; the statements of `main`, executed top to bottom, take no input and
append exactly two lines to standard output, "42" and then the 102-character
string bound to `veryLongVariableName`, whatever was written before; the value
10 of `y` does not occur in the output. -/
theorem main_output (out : Stdout) :
    goRun fixtureText out = none ∧
      stdoutAfterGoRun fixtureText out = out ∧
      execMain fixtureText out = some (main out) ∧
      main out = out ++ unlines ["42".toList, longLiteral] ∧
      longLiteral.length = 102 ∧
      occursIn "10".toList (main []) = false := by
  have hc : compiles fixtureText = false := by decide
  have hg : goRun fixtureText out = none := by simp [goRun, hc]
  refine ⟨hg, by simp [stdoutAfterGoRun, hg], execMain_fixture out, ?_, by decide, by decide⟩
  simp only [main, Println, List.append_assoc, List.append_cancel_left_eq]
  decide

/-- C10: the string literal of line 19 is 104 characters wide with its quotes,
and in every text that has the token sequence of the fixture the scanner finds
the literal, and each line it finds it on is longer than 100 characters. -/
theorem long_literal_line (text : List Char) (lexed : List (Token × Nat))
    (hlex : lex text = some lexed) (htok : tokens text = tokens fixtureText) :
    longLiteral.length + 2 = 104 ∧
      (∃ l, (Token.str longLiteral, l) ∈ lexed) ∧
      ∀ l, (Token.str longLiteral, l) ∈ lexed → 100 < (nthLine text (l - 1)).length := by
  refine ⟨by decide, ?_, ?_⟩
  · obtain ⟨lexed2, l, h1, h2, _⟩ := long_literal_in_layout htok
    rw [hlex] at h1
    cases h1
    exact ⟨l, h2⟩
  · intro l hm
    have := lex_str_line hlex hm
    have hlen : longLiteral.length = 102 := by decide
    omega

/-- C10 at the reworded fixture, where the literal is on line 19. -/
theorem long_literal_line_witness :
    longLiteral.length + 2 = 104 ∧
      (∃ l, (Token.str longLiteral, l) ∈ (lex rewordedText).getD []) ∧
      ∀ l, (Token.str longLiteral, l) ∈ (lex rewordedText).getD [] →
        100 < (nthLine rewordedText (l - 1)).length :=
  long_literal_line rewordedText ((lex rewordedText).getD []) (by decide!) (by decide!)

end BadGo
